import Mathlib

/-!
Verification of the `OpenSSLCrypto::HMACContext` wrapper
(`openvpn/openssl/crypto/hmac.hpp`).

The wrapper drives the OpenSSL HMAC engine (`HMAC_CTX_init`, `HMAC_Init_ex`,
`HMAC_Update`, `HMAC_Final`, `HMAC_size`, `HMAC_CTX_cleanup`) and maintains a
single `initialized : bool` flag.  We embed the wrapper's control flow
verbatim and the engine by its documented contract: an `HMAC_CTX` logically
holds the bound digest, the bound key, and the bytes accumulated since the
last (re-)keying; `HMAC_Final` produces the HMAC tag of the accumulated
bytes; `HMAC_Init_ex` with null key and null digest re-keys with the retained
key and digest; `HMAC_size` is the digest size of the bound algorithm, at
most `EVP_MAX_MD_SIZE`.  Each fallible engine call takes a boolean oracle
telling whether the engine succeeds, so both the success and the failure
branches of the wrapper are embedded.  Engine calls are also logged as
events, so that cleanup-ordering (zeroization) properties can be stated over
whole execution traces.
-/

/-- Modelled from the spec: the digest-algorithm identifiers
(`CryptoAlgs::Type`, resolved to an `EVP_MD` by `DigestContext::digest_type`
in `digest.hpp`, which is outside `src/`).  The spec treats the resolver as
an external leaf service; we enumerate the digest algorithms OpenSSL's HMAC
is driven with. -/
inductive CryptoAlgsType where
  | md4
  | md5
  | sha1
  | sha224
  | sha256
  | sha384
  | sha512
deriving DecidableEq

/-- Tag length in bytes of each digest algorithm (OpenSSL `EVP_MD_size`). -/
def digestSize : CryptoAlgsType → Nat
  | CryptoAlgsType.md4 => 16
  | CryptoAlgsType.md5 => 16
  | CryptoAlgsType.sha1 => 20
  | CryptoAlgsType.sha224 => 28
  | CryptoAlgsType.sha256 => 32
  | CryptoAlgsType.sha384 => 48
  | CryptoAlgsType.sha512 => 64

/-- Input block size in bytes of each digest algorithm (OpenSSL
`EVP_MD_block_size`), used by the HMAC construction to pad the key. -/
def blockSize : CryptoAlgsType → Nat
  | CryptoAlgsType.sha384 => 128
  | CryptoAlgsType.sha512 => 128
  | _ => 64

/-- OpenSSL's bound on every digest's output size (`<openssl/evp.h>`). -/
def EVP_MAX_MD_SIZE : Nat := 64

/-- Abstract model of the underlying hash function: an executable stand-in
producing exactly `digestSize a` bytes.  The hash compression function itself
is an external collaborator (a non-goal of the fragment); every claim below
is independent of which concrete function this is, provided its output
length is the digest size. -/
def modelHash (a : CryptoAlgsType) (m : List Nat) : List Nat :=
  (List.range (digestSize a)).map
    (fun i => m.foldl (fun acc b => (acc * 131 + b + 1) % 256) (i % 256))

/-- HMAC key preparation: keys longer than the block are hashed, then the
key is zero-padded to the block size. -/
def padKey (a : CryptoAlgsType) (key : List Nat) : List Nat :=
  let k0 := if blockSize a < key.length then modelHash a key else key
  k0 ++ List.replicate (blockSize a - k0.length) 0

/-- The HMAC construction over the model hash:
`H((K xor opad) ++ H((K xor ipad) ++ m))`. -/
def hmacTag (a : CryptoAlgsType) (key msg : List Nat) : List Nat :=
  let kp := padKey a key
  modelHash a ((kp.map (fun b => b ^^^ 92)) ++
    modelHash a ((kp.map (fun b => b ^^^ 54)) ++ msg))

/-- Logical content of an OpenSSL `HMAC_CTX` after a successful keying: the
bound digest, the bound key (retained by the engine for re-keying), and the
bytes fed since the last (re-)keying. -/
structure HMAC_CTX where
  md : CryptoAlgsType
  key : List Nat
  data : List Nat
deriving DecidableEq

/-- A zeroed engine context, as left by `HMAC_CTX_init` / `HMAC_CTX_cleanup`. -/
def emptyCtx : HMAC_CTX :=
  { md := CryptoAlgsType.md5, key := [], data := [] }

/-- The wrapper's state: the `initialized` flag and the owned `HMAC_CTX`
(fields `initialized` and `ctx` of `HMACContext`, hmac.hpp lines 153-154). -/
structure HMACContext where
  initialized : Bool
  ctx : HMAC_CTX
deriving DecidableEq

/-- The two exception types of the wrapper:
`openssl_hmac_uninitialized` and `openssl_hmac_error` (lines 42-43). -/
inductive HMACError where
  | uninitialized
  | hmacError (msg : String)
deriving DecidableEq

/-- Decidable equality of `Except` results, so the wrapper's outcomes can
be evaluated and compared on concrete inputs. -/
instance {ε α : Type} [DecidableEq ε] [DecidableEq α] :
    DecidableEq (Except ε α) := fun x y =>
  match x, y with
  | Except.ok a, Except.ok b =>
      if h : a = b then Decidable.isTrue (by rw [h])
      else Decidable.isFalse (fun he => h (Except.ok.inj he))
  | Except.error a, Except.error b =>
      if h : a = b then Decidable.isTrue (by rw [h])
      else Decidable.isFalse (fun he => h (Except.error.inj he))
  | Except.ok _, Except.error _ =>
      Decidable.isFalse (fun he => Except.noConfusion he)
  | Except.error _, Except.ok _ =>
      Decidable.isFalse (fun he => Except.noConfusion he)

/-- `MAX_HMAC_SIZE = EVP_MAX_MD_SIZE` (lines 45-47). -/
def MAX_HMAC_SIZE : Nat := EVP_MAX_MD_SIZE

/-- The C++ `int(...)` narrowing the wrapper applies to `key_size` at
`HMAC_Init_ex` (hmac.hpp line 67) and to `size` at `HMAC_Update` (line 96):
`int` is 32 bits on the 32- and 64-bit Android ABIs, so the value is reduced
modulo `2^32` before the engine re-widens it to `size_t`.  For wrapped
values below `2^31` this is exactly the byte count the engine reads (the
regime of the theorems below); a wrapped value of `2^31` or more would make
the `int` negative and the re-widened `size_t` astronomically large — an
out-of-bounds read the byte-level model does not chase. -/
def intNarrow (n : Nat) : Nat := n % 2 ^ 32

/-- The bytes the engine actually receives from a buffer of `m` when its
length is passed through the `int` cast: the first `intNarrow m.length`
bytes. -/
def narrowChunk (m : List Nat) : List Nat := m.take (intNarrow m.length)

/-- Engine calls, logged so cleanup ordering can be stated over traces. -/
inductive EngineEv where
  | ctxInit
  | initExOk
  | initExFail
  | resetExOk
  | resetExFail
  | updateEv
  | finalEv
  | cleanup
deriving DecidableEq

/-- Default constructor `HMACContext()` (lines 49-52): `initialized = false`,
engine context not yet set up. -/
def freshContext : HMACContext :=
  { initialized := false, ctx := emptyCtx }

/-- Private `erase()` (lines 131-138): if `initialized`, call
`HMAC_CTX_cleanup` (which zeroizes the engine state) and clear the flag;
otherwise do nothing.  Returns the new state and the engine calls made. -/
def HMACContext.erase (s : HMACContext) : HMACContext × List EngineEv :=
  if s.initialized then
    ({ initialized := false, ctx := emptyCtx }, [EngineEv.cleanup])
  else
    (s, [])

/-- The destructor `~HMACContext()` (line 60): calls `erase()`. -/
def HMACContext.destroy (s : HMACContext) : HMACContext × List EngineEv :=
  s.erase

/-- Private `check_initialized()` (lines 145-151): under
`OPENVPN_ENABLE_ASSERT` (the `strict` flag), throw
`openssl_hmac_uninitialized` when the flag is down; otherwise a no-op. -/
def HMACContext.check_initialized (s : HMACContext) (strict : Bool) :
    Except HMACError Unit :=
  if strict && !s.initialized then Except.error HMACError.uninitialized
  else Except.ok ()

/-- `init(digest, key, key_size)` (lines 62-76): `erase()`, then
`HMAC_CTX_init`, then `HMAC_Init_ex (&ctx, key, int(key_size), ...)`
binding digest and key — the key length goes through the `int` cast, so the
engine binds the first `intNarrow key.length` bytes of the key.  `engineOk`
tells whether `HMAC_Init_ex` succeeds; on failure the wrapper throws
`openssl_hmac_error("HMAC_Init_ex (init)")` and never raises the flag, on
success it sets `initialized = true`. -/
def HMACContext.init (s : HMACContext) (digest : CryptoAlgsType)
    (key : List Nat) (engineOk : Bool) :
    HMACContext × List EngineEv × Except HMACError Unit :=
  let s1 := s.erase.1
  let ev1 := s.erase.2
  let s2 : HMACContext := { s1 with ctx := emptyCtx }
  if engineOk then
    ({ initialized := true,
       ctx := { md := digest, key := narrowChunk key, data := [] } },
     ev1 ++ [EngineEv.ctxInit, EngineEv.initExOk], Except.ok ())
  else
    (s2, ev1 ++ [EngineEv.ctxInit, EngineEv.initExFail],
     Except.error (HMACError.hmacError "HMAC_Init_ex (init)"))

/-- `reset()` (lines 78-90): `check_initialized()`, then
`HMAC_Init_ex(ctx, nullptr, 0, nullptr, nullptr)`, which re-keys the engine
with the retained key and digest, discarding the accumulated bytes.  On
engine failure the wrapper throws `openssl_hmac_error("HMAC_Init_ex (reset)")`
and the flag is left untouched. -/
def HMACContext.reset (s : HMACContext) (strict : Bool) (engineOk : Bool) :
    HMACContext × List EngineEv × Except HMACError Unit :=
  match s.check_initialized strict with
  | Except.error e => (s, [], Except.error e)
  | Except.ok _ =>
    if engineOk then
      ({ s with ctx := { s.ctx with data := [] } }, [EngineEv.resetExOk],
       Except.ok ())
    else
      (s, [EngineEv.resetExFail],
       Except.error (HMACError.hmacError "HMAC_Init_ex (reset)"))

/-- `update(in, size)` (lines 92-104): `check_initialized()`, then
`HMAC_Update(&ctx, in, int(size))` — the byte count goes through the `int`
cast, so the engine appends only the first `intNarrow input.length` bytes of
the input to the accumulated bytes.  On engine failure the wrapper throws
`openssl_hmac_error("HMAC_Update")`. -/
def HMACContext.update (s : HMACContext) (strict : Bool) (input : List Nat)
    (engineOk : Bool) :
    HMACContext × List EngineEv × Except HMACError Unit :=
  match s.check_initialized strict with
  | Except.error e => (s, [], Except.error e)
  | Except.ok _ =>
    if engineOk then
      ({ s with ctx := { s.ctx with data := s.ctx.data ++ narrowChunk input } },
       [EngineEv.updateEv], Except.ok ())
    else
      (s, [EngineEv.updateEv],
       Except.error (HMACError.hmacError "HMAC_Update"))

/-- `final(out)` (lines 106-120): `check_initialized()`, then `HMAC_Final`,
which writes the HMAC tag of the accumulated bytes into `out` and reports its
length `outlen`; the wrapper returns `outlen`.  The result carries the
written tag and the returned length.  On engine failure the wrapper throws
`openssl_hmac_error("HMAC_Final")`. -/
def HMACContext.final (s : HMACContext) (strict : Bool) (engineOk : Bool) :
    HMACContext × List EngineEv × Except HMACError (List Nat × Nat) :=
  match s.check_initialized strict with
  | Except.error e => (s, [], Except.error e)
  | Except.ok _ =>
    if engineOk then
      let tag := hmacTag s.ctx.md s.ctx.key s.ctx.data
      (s, [EngineEv.finalEv], Except.ok (tag, tag.length))
    else
      (s, [EngineEv.finalEv],
       Except.error (HMACError.hmacError "HMAC_Final"))

/-- Private `size_()` (lines 140-143): `HMAC_size(&ctx)`, the digest size of
the bound algorithm. -/
def HMACContext.size_ (s : HMACContext) : Nat :=
  digestSize s.ctx.md

/-- `size()` (lines 122-126): `check_initialized()` then `size_()`. -/
def HMACContext.size (s : HMACContext) (strict : Bool) :
    Except HMACError Nat :=
  match s.check_initialized strict with
  | Except.error e => Except.error e
  | Except.ok _ => Except.ok s.size_

/-- `is_initialized()` (line 128): returns the flag; a pure, total observer. -/
def HMACContext.is_initialized (s : HMACContext) : Bool :=
  s.initialized

/-- An API call issued by a caller, with the engine-success oracle for its
fallible engine call. -/
inductive APICall where
  | initC (digest : CryptoAlgsType) (key : List Nat) (engineOk : Bool)
  | resetC (engineOk : Bool)
  | updateC (input : List Nat) (engineOk : Bool)
  | finalC (engineOk : Bool)
  | sizeC
deriving DecidableEq

/-- Whether a call is an `init`. -/
def APICall.isInit : APICall → Bool
  | APICall.initC _ _ _ => true
  | _ => false

/-- One API call: resulting state and engine calls made. -/
def step (strict : Bool) (s : HMACContext) : APICall → HMACContext × List EngineEv
  | APICall.initC d k ok => ((s.init d k ok).1, (s.init d k ok).2.1)
  | APICall.resetC ok => ((s.reset strict ok).1, (s.reset strict ok).2.1)
  | APICall.updateC m ok => ((s.update strict m ok).1, (s.update strict m ok).2.1)
  | APICall.finalC ok => ((s.final strict ok).1, (s.final strict ok).2.1)
  | APICall.sizeC => (s, [])

/-- Run a whole sequence of API calls, collecting the engine trace. -/
def run (strict : Bool) : HMACContext → List APICall → HMACContext × List EngineEv
  | s, [] => (s, [])
  | s, c :: cs =>
    ((run strict (step strict s c).1 cs).1,
     (step strict s c).2 ++ (run strict (step strict s c).1 cs).2)

/-- Scans an engine trace, tracking whether the engine currently holds live
keyed state (`initExOk` establishes it, `cleanup` zeroizes it, a failed
keying binds nothing).  The scan demands that whenever the context storage
is reused for a fresh setup (`ctxInit`) no live state is held that was never
passed to the cleanup routine, and that no live state remains when the trace
ends (the storage is released). -/
def cleanedBeforeReuse : List EngineEv → Bool → Bool
  | [], live => !live
  | EngineEv.ctxInit :: evs, live => !live && cleanedBeforeReuse evs live
  | EngineEv.initExOk :: evs, _ => cleanedBeforeReuse evs true
  | EngineEv.initExFail :: evs, _ => cleanedBeforeReuse evs false
  | EngineEv.cleanup :: evs, _ => cleanedBeforeReuse evs false
  | _ :: evs, live => cleanedBeforeReuse evs live

/-! ## Helper lemmas -/

theorem init_success_state (s : HMACContext) (d : CryptoAlgsType)
    (k : List Nat) :
    (s.init d k true).1
      = { initialized := true,
          ctx := { md := d, key := narrowChunk k, data := [] } } :=
  rfl

theorem check_initialized_ok (s : HMACContext) (strict : Bool)
    (h : s.initialized = true) :
    s.check_initialized strict = Except.ok () := by
  simp [HMACContext.check_initialized, h]

theorem update_success (s : HMACContext) (strict : Bool) (m : List Nat)
    (h : s.initialized = true) :
    s.update strict m true
      = ({ s with ctx := { s.ctx with data := s.ctx.data ++ narrowChunk m } },
         [EngineEv.updateEv], Except.ok ()) := by
  simp [HMACContext.update, check_initialized_ok s strict h]

theorem foldl_update_success (strict : Bool) (chunks : List (List Nat)) :
    ∀ s : HMACContext, s.initialized = true →
      chunks.foldl (fun t m => (t.update strict m true).1) s
        = { s with ctx := { s.ctx with
              data := s.ctx.data ++ (chunks.map narrowChunk).flatten } } := by
  induction chunks with
  | nil => intro s h; simp
  | cons c cs ih =>
      intro s h
      rw [List.foldl_cons]
      simp only [update_success s strict c h]
      rw [ih { initialized := s.initialized,
               ctx := { md := s.ctx.md, key := s.ctx.key,
                        data := s.ctx.data ++ narrowChunk c } } h]
      simp [List.append_assoc]

theorem step_cleaned (strict : Bool) (s : HMACContext) (c : APICall)
    (k : List EngineEv) :
    cleanedBeforeReuse ((step strict s c).2 ++ k) s.initialized
      = cleanedBeforeReuse k ((step strict s c).1).initialized := by
  cases c with
  | initC d key ok =>
      cases hs : s.initialized <;> cases ok <;>
        simp [step, HMACContext.init, HMACContext.erase, hs, cleanedBeforeReuse]
  | resetC ok =>
      cases hs : s.initialized <;> cases strict <;> cases ok <;>
        simp [step, HMACContext.reset, HMACContext.check_initialized, hs,
          cleanedBeforeReuse]
  | updateC m ok =>
      cases hs : s.initialized <;> cases strict <;> cases ok <;>
        simp [step, HMACContext.update, HMACContext.check_initialized, hs,
          cleanedBeforeReuse]
  | finalC ok =>
      cases hs : s.initialized <;> cases strict <;> cases ok <;>
        simp [step, HMACContext.final, HMACContext.check_initialized, hs,
          cleanedBeforeReuse]
  | sizeC => simp [step, cleanedBeforeReuse]

theorem run_cleaned (strict : Bool) (calls : List APICall) :
    ∀ (s : HMACContext) (k : List EngineEv),
      cleanedBeforeReuse ((run strict s calls).2 ++ k) s.initialized
        = cleanedBeforeReuse k ((run strict s calls).1).initialized := by
  induction calls with
  | nil => intro s k; rfl
  | cons c cs ih =>
      intro s k
      show cleanedBeforeReuse
          (((step strict s c).2 ++ (run strict (step strict s c).1 cs).2) ++ k)
          s.initialized = _
      rw [List.append_assoc, step_cleaned, ih]
      rfl

theorem step_preserves_noninit (strict : Bool) (s : HMACContext) (c : APICall)
    (h : c.isInit = false) :
    ((step strict s c).1).initialized = s.initialized
      ∧ ((step strict s c).1).ctx.md = s.ctx.md := by
  cases c with
  | initC d key ok => simp [APICall.isInit] at h
  | resetC ok =>
      cases hc : s.check_initialized strict <;> cases ok <;>
        simp [step, HMACContext.reset, hc]
  | updateC m ok =>
      cases hc : s.check_initialized strict <;> cases ok <;>
        simp [step, HMACContext.update, hc]
  | finalC ok =>
      cases hc : s.check_initialized strict <;> cases ok <;>
        simp [step, HMACContext.final, hc]
  | sizeC => simp [step]

theorem run_preserves_noninit (strict : Bool) (calls : List APICall) :
    ∀ s : HMACContext, (∀ c ∈ calls, c.isInit = false) →
      ((run strict s calls).1).initialized = s.initialized
        ∧ ((run strict s calls).1).ctx.md = s.ctx.md := by
  induction calls with
  | nil => intro s _; exact ⟨rfl, rfl⟩
  | cons c cs ih =>
      intro s h
      have hc : c.isInit = false := h c (List.mem_cons_self c cs)
      have hcs : ∀ d ∈ cs, d.isInit = false :=
        fun d hd => h d (List.mem_cons_of_mem c hd)
      have h1 := step_preserves_noninit strict s c hc
      have h2 := ih (step strict s c).1 hcs
      exact ⟨h2.1.trans h1.1, h2.2.trans h1.2⟩

theorem length_modelHash (a : CryptoAlgsType) (m : List Nat) :
    (modelHash a m).length = digestSize a := by
  simp [modelHash]

theorem length_hmacTag (a : CryptoAlgsType) (k m : List Nat) :
    (hmacTag a k m).length = digestSize a := by
  simp [hmacTag, length_modelHash]

theorem digestSize_le_max (a : CryptoAlgsType) :
    digestSize a ≤ EVP_MAX_MD_SIZE := by
  cases a <;> decide

theorem narrowChunk_eq_self (m : List Nat) (h : m.length < 2 ^ 31) :
    narrowChunk m = m := by
  unfold narrowChunk intNarrow
  rw [Nat.mod_eq_of_lt (lt_trans h (by norm_num))]
  exact List.take_length m

theorem length_le_flatten {c : List Nat} {chunks : List (List Nat)}
    (hc : c ∈ chunks) : c.length ≤ chunks.flatten.length := by
  rw [List.length_flatten]
  exact List.single_le_sum (fun x _ => Nat.zero_le x) c.length
    (List.mem_map_of_mem List.length hc)

theorem map_narrowChunk_eq (chunks : List (List Nat))
    (h : ∀ c ∈ chunks, narrowChunk c = c) :
    chunks.map narrowChunk = chunks := by
  induction chunks with
  | nil => rfl
  | cons c cs ih =>
      rw [List.map_cons, h c (List.mem_cons_self c cs),
        ih (fun d hd => h d (List.mem_cons_of_mem c hd))]

theorem narrowChunk_replicate_big :
    narrowChunk (List.replicate (2 ^ 32) 7) = [] := by
  have e1 : intNarrow (List.replicate (2 ^ 32) (7 : Nat)).length = 0 := by
    rw [List.length_replicate]
    exact Nat.mod_self _
  calc narrowChunk (List.replicate (2 ^ 32) 7)
      = List.take (intNarrow (List.replicate (2 ^ 32) (7 : Nat)).length)
          (List.replicate (2 ^ 32) 7) := rfl
    _ = List.take 0 (List.replicate (2 ^ 32) 7) := by rw [e1]
    _ = [] := List.take_zero _

theorem narrowChunk_big_concat :
    narrowChunk (List.replicate (2 ^ 32) 7 ++ [9]) = [7] := by
  have e1 : intNarrow ((List.replicate (2 ^ 32) (7 : Nat) ++ [9]).length) = 1 := by
    rw [List.length_append, List.length_replicate]
    norm_num [intNarrow]
  have hrep : List.replicate (2 ^ 32) (7 : Nat)
      = 7 :: List.replicate (2 ^ 32 - 1) 7 := by
    rw [← List.replicate_succ]
    norm_num
  calc narrowChunk (List.replicate (2 ^ 32) 7 ++ [9])
      = List.take (intNarrow ((List.replicate (2 ^ 32) 7 ++ [9] : List Nat).length))
          (List.replicate (2 ^ 32) 7 ++ [9]) := rfl
    _ = List.take 1 (List.replicate (2 ^ 32) 7 ++ [9]) := by rw [e1]
    _ = List.take 1 ((7 :: List.replicate (2 ^ 32 - 1) 7) ++ [9]) := by rw [hrep]
    _ = [7] := rfl

theorem foldl_hashStep_lt (l : List Nat) :
    ∀ x : Nat, x < 256 →
      List.foldl (fun acc b => (acc * 131 + b + 1) % 256) x l < 256 := by
  induction l with
  | nil => intro x hx; exact hx
  | cons c cs ih =>
      intro x hx
      exact ih _ (Nat.mod_lt _ (by norm_num))

set_option maxRecDepth 4096 in
theorem fold64_id :
    ∀ x : Fin 256,
      List.foldl (fun acc b => (acc * 131 + b + 1) % 256) x.val
        (List.replicate 64 7) = x.val := by
  decide

theorem foldl_replicate_64_mul (q : Nat) :
    ∀ x : Nat, x < 256 →
      List.foldl (fun acc b => (acc * 131 + b + 1) % 256) x
        (List.replicate (64 * q) 7) = x := by
  induction q with
  | zero => intro x hx; rfl
  | succ n ih =>
      intro x hx
      have he : 64 * (n + 1) = 64 + 64 * n := by ring
      rw [he, List.replicate_add, List.foldl_append, fold64_id ⟨x, hx⟩]
      exact ih x hx

theorem foldl_replicate_big (x : Nat) (hx : x < 256) :
    List.foldl (fun acc b => (acc * 131 + b + 1) % 256) x
      (List.replicate (2 ^ 32) 7) = x := by
  have he : (2 : Nat) ^ 32 = 64 * 67108864 := by norm_num
  rw [he]
  exact foldl_replicate_64_mul 67108864 x hx

theorem modelHash_absorb (a : CryptoAlgsType) (p r : List Nat) :
    modelHash a (p ++ (List.replicate (2 ^ 32) 7 ++ r))
      = modelHash a (p ++ r) := by
  unfold modelHash
  apply List.map_congr_left
  intro i _
  simp only [List.foldl_append]
  rw [foldl_replicate_big _ (foldl_hashStep_lt p _ (Nat.mod_lt i (by norm_num)))]

theorem hmacTag_absorb (a : CryptoAlgsType) (k r : List Nat) :
    hmacTag a k (List.replicate (2 ^ 32) 7 ++ r) = hmacTag a k r := by
  simp only [hmacTag]
  rw [modelHash_absorb]

/-- A sample context successfully initialized with SHA-1 and key `[5]`,
used to instantiate hypotheses of the theorems below at concrete inputs. -/
def sampleInit : HMACContext :=
  (freshContext.init CryptoAlgsType.sha1 [5] true).1

/-! ## Claims -/

/-- C1 (amended): chunk invariance holds for every splitting in which the
logical message — and hence every individual chunk — is shorter than `2^31`
bytes, so that the `int(size)` cast at `HMAC_Update` (hmac.hpp line 96)
preserves each update's byte count: `init; update(chunk_1); ...;
update(chunk_n); final` then returns exactly what `init;
update(concatenation); final` returns — the same tag, the same returned
length (and the same context state and engine calls).  Taking
`chunks = [m1, m2]` gives the two-update instance.  For arbitrary byte
sequences the claim is false of the program: see the counterexample, where
a chunk of `2^32` bytes wraps to an `int` of zero. -/
theorem hmac_chunk_invariance (strict : Bool) (a : CryptoAlgsType)
    (key : List Nat) (chunks : List (List Nat))
    (h : chunks.flatten.length < 2 ^ 31) :
    (chunks.foldl (fun t m => (t.update strict m true).1)
        ((freshContext.init a key true).1)).final strict true
      = ((((freshContext.init a key true).1).update strict chunks.flatten
          true).1).final strict true := by
  have h0 : ((freshContext.init a key true).1).initialized = true := rfl
  rw [foldl_update_success strict chunks _ h0]
  rw [update_success _ strict chunks.flatten h0]
  rw [map_narrowChunk_eq chunks
    (fun c hc => narrowChunk_eq_self c (lt_of_le_of_lt (length_le_flatten hc) h))]
  rw [narrowChunk_eq_self chunks.flatten h]

/-- Witness for C1's amended theorem: SHA-256, key `[3]`, chunks
`[[1],[2]]`, total message length `2 < 2^31`. -/
theorem hmac_chunk_invariance_witness :
    ([[1], [2]] : List (List Nat)).flatten.length < 2 ^ 31
      ∧ (([[1], [2]] : List (List Nat)).foldl (fun t m => (t.update true m true).1)
            ((freshContext.init CryptoAlgsType.sha256 [3] true).1)).final true true
        = ((((freshContext.init CryptoAlgsType.sha256 [3] true).1).update true
            ([[1], [2]] : List (List Nat)).flatten true).1).final true true :=
  ⟨by decide,
   hmac_chunk_invariance true CryptoAlgsType.sha256 [3] [[1], [2]] (by decide)⟩

/-- Counterexample to C1 as stated over all byte sequences: with MD4, the
empty key, and the chunking `[m1, [9]]` where `m1` has `2^32` bytes of `7`,
the split run feeds nothing for `m1` (`int(2^32) = 0`) and tags `[9]`,
while the concatenated run feeds only `m1`'s first byte
(`int(2^32 + 1) = 1`) and tags `[7]`; the two `final` results differ. -/
theorem hmac_chunk_invariance_cex :
    ¬ (([List.replicate (2 ^ 32) 7, [9]] : List (List Nat)).foldl
          (fun t m => (t.update true m true).1)
          ((freshContext.init CryptoAlgsType.md4 [] true).1)).final true true
      = ((((freshContext.init CryptoAlgsType.md4 [] true).1).update true
          (([List.replicate (2 ^ 32) 7, [9]] : List (List Nat)).flatten)
          true).1).final true true := by
  intro hEq
  have h0 : ((freshContext.init CryptoAlgsType.md4 [] true).1).initialized
      = true := rfl
  rw [foldl_update_success true [List.replicate (2 ^ 32) 7, [9]] _ h0,
    update_success _ true _ h0] at hEq
  simp only [List.map_cons, List.map_nil, List.flatten_cons, List.flatten_nil,
    List.append_nil, narrowChunk_replicate_big] at hEq
  rw [narrowChunk_big_concat] at hEq
  exact absurd hEq (by decide)

/-- C2: over every sequence of API calls on a fresh context, in every
engine-success/failure scenario and in both validation modes, the engine
trace followed by destruction satisfies `cleanedBeforeReuse`: whenever the
context holds live keyed engine state, that state is passed to the cleanup
routine (`HMAC_CTX_cleanup`) before the storage is set up anew
(re-initialization) and before the trace ends (destruction); no execution
destroys or re-initializes the context while holding engine state that was
never cleaned. -/
theorem hmac_cleanup_on_every_exit (strict : Bool) (calls : List APICall) :
    cleanedBeforeReuse
      ((run strict freshContext calls).2
        ++ ((run strict freshContext calls).1).destroy.2)
      freshContext.initialized = true := by
  rw [run_cleaned]
  cases h : ((run strict freshContext calls).1).initialized <;>
    simp [HMACContext.destroy, HMACContext.erase, h, cleanedBeforeReuse]

/-- C3: after `init(A,K1)`, any updates in between, and a second
`init(A,K2)` with `K1 ≠ K2`, the sequence `update(m); final()` returns
exactly what a freshly initialized context with `init(A,K2)` returns for
`update(m); final()` — the second init fully clears the first key's state
and the result has no residual dependence on `K1`. -/
theorem hmac_reinit_key_independence (strict : Bool) (a : CryptoAlgsType)
    (k1 k2 : List Nat) (h : k1 ≠ k2) (mid : List (List Nat)) (m : List Nat) :
    (((((mid.foldl (fun t mm => (t.update strict mm true).1)
            ((freshContext.init a k1 true).1)).init a k2 true).1).update strict
          m true).1).final strict true
      = ((((freshContext.init a k2 true).1).update strict m true).1).final
          strict true :=
  rfl

/-- Witness for C3: algorithm SHA-256, keys `[1] ≠ [2]`, one intermediate
update of `[5]`, message `[7]`. -/
theorem hmac_reinit_key_independence_witness :
    ([1] : List Nat) ≠ [2]
      ∧ ((((([[(5 : Nat)]].foldl (fun t mm => (t.update true mm true).1)
              ((freshContext.init CryptoAlgsType.sha256 [1] true).1)).init
                CryptoAlgsType.sha256 [2] true).1).update true [7] true).1).final
            true true
          = ((((freshContext.init CryptoAlgsType.sha256 [2] true).1).update
              true [7] true).1).final true true :=
  ⟨by decide,
   hmac_reinit_key_independence true CryptoAlgsType.sha256 [1] [2] (by decide)
     [[5]] [7]⟩

/-- C4: in strict mode (`OPENVPN_ENABLE_ASSERT`), `update`, `final`,
`reset`, and `size` on a context whose `initialized` flag is down (never
initialized, or cleared) fail with the use-before-init error
(`openssl_hmac_uninitialized`), immediately, making no engine call and
leaving the context state unchanged; `is_initialized` is a total pure
observer (it never fails by construction) and reports the flag. -/
theorem hmac_use_before_init_strict (s : HMACContext) (m : List Nat)
    (engineOk : Bool) (h : s.initialized = false) :
    s.update true m engineOk = (s, [], Except.error HMACError.uninitialized)
      ∧ s.final true engineOk = (s, [], Except.error HMACError.uninitialized)
      ∧ s.reset true engineOk = (s, [], Except.error HMACError.uninitialized)
      ∧ s.size true = Except.error HMACError.uninitialized
      ∧ s.is_initialized = false := by
  simp [HMACContext.update, HMACContext.final, HMACContext.reset,
    HMACContext.size, HMACContext.check_initialized,
    HMACContext.is_initialized, h]

/-- Witness for C4 at the fresh (never-initialized) context. -/
theorem hmac_use_before_init_strict_witness :
    freshContext.initialized = false
      ∧ (freshContext.update true [1] true
            = (freshContext, [], Except.error HMACError.uninitialized)
          ∧ freshContext.final true true
              = (freshContext, [], Except.error HMACError.uninitialized)
          ∧ freshContext.reset true true
              = (freshContext, [], Except.error HMACError.uninitialized)
          ∧ freshContext.size true = Except.error HMACError.uninitialized
          ∧ freshContext.is_initialized = false) :=
  ⟨rfl, hmac_use_before_init_strict freshContext [1] true rfl⟩

/-- C5: when the engine rejects the algorithm/key binding during `init`,
the wrapper reports `openssl_hmac_error("HMAC_Init_ex (init)")` (the
spec's `PrimitiveInitError`) and the context is left fully uninitialized:
`is_initialized()` is false and the engine context is the zeroed one — no
half-initialized state is observable, from any starting state. -/
theorem hmac_init_failure_uninitialized (s : HMACContext)
    (a : CryptoAlgsType) (k : List Nat) :
    (s.init a k false).2.2
        = Except.error (HMACError.hmacError "HMAC_Init_ex (init)")
      ∧ ((s.init a k false).1).initialized = false
      ∧ ((s.init a k false).1).ctx = emptyCtx
      ∧ ((s.init a k false).1).is_initialized = false := by
  cases hs : s.initialized <;>
    simp [HMACContext.init, HMACContext.erase, HMACContext.is_initialized, hs]

/-- C6: on a context initialized with `(A,K)` that has already been fed any
bytes, `reset()` (supplying no new key material) followed by `update(m);
final()` returns exactly what a fresh context returns after `init(A,K);
update(m); final()` — reset restarts accumulation under the same bound
algorithm and key, discarding all bytes fed before the reset. -/
theorem hmac_reset_fresh_equiv (strict : Bool) (a : CryptoAlgsType)
    (k : List Nat) (pre : List (List Nat)) (m : List Nat) :
    (((((pre.foldl (fun t mm => (t.update strict mm true).1)
            ((freshContext.init a k true).1)).reset strict true).1).update
          strict m true).1).final strict true
      = ((((freshContext.init a k true).1).update strict m true).1).final
          strict true := by
  rw [init_success_state freshContext a k]
  rw [foldl_update_success strict pre
    { initialized := true,
      ctx := { md := a, key := narrowChunk k, data := [] } } rfl]
  simp [HMACContext.reset, HMACContext.update, HMACContext.final,
    HMACContext.check_initialized]

/-- C7: after `init(A,K)`, `size()` called at any later point — after any
sequence of further `reset`/`update`/`final`/`size` calls, with any inputs
and any engine outcomes — returns the fixed tag length `digestSize A` of
the bound algorithm; the value depends neither on `K` nor on the bytes fed
nor on how many calls were made. -/
theorem hmac_size_fixed_after_init (strict : Bool) (a : CryptoAlgsType)
    (k : List Nat) (calls : List APICall)
    (h : ∀ c ∈ calls, c.isInit = false) :
    ((run strict ((freshContext.init a k true).1) calls).1).size strict
      = Except.ok (digestSize a) := by
  have h0 := run_preserves_noninit strict calls ((freshContext.init a k true).1) h
  have h1 : ((run strict ((freshContext.init a k true).1) calls).1).initialized
      = true := h0.1
  have h2 : ((run strict ((freshContext.init a k true).1) calls).1).ctx.md
      = a := h0.2
  simp [HMACContext.size, check_initialized_ok _ _ h1, HMACContext.size_, h2]

/-- Witness for C7: SHA-256, key `[9]`, followed by an update, a reset, a
final, and a size call. -/
theorem hmac_size_fixed_after_init_witness :
    (∀ c ∈ [APICall.updateC [1, 2] true, APICall.resetC true,
        APICall.finalC true, APICall.sizeC], c.isInit = false)
      ∧ ((run true ((freshContext.init CryptoAlgsType.sha256 [9] true).1)
            [APICall.updateC [1, 2] true, APICall.resetC true,
             APICall.finalC true, APICall.sizeC]).1).size true
          = Except.ok (digestSize CryptoAlgsType.sha256) :=
  ⟨by decide,
   hmac_size_fixed_after_init true CryptoAlgsType.sha256 [9]
     [APICall.updateC [1, 2] true, APICall.resetC true,
      APICall.finalC true, APICall.sizeC] (by decide)⟩

/-- C8 (amended): for update sequences totalling fewer than `2^31` bytes
and keys shorter than `2^31` bytes — so the `int` casts at `HMAC_Update`
(hmac.hpp line 96) and `HMAC_Init_ex` (line 67) preserve the byte counts —
a successful `final` on a context initialized with `(A,K)` and fed the
chunks writes the MAC tag of all bytes fed since `init` (the flattened
chunks), returns the tag's length — which equals `size()` of the bound
algorithm — and leaves the context state unchanged, still initialized and
usable for reset-then-reuse.  Without the length bound the claim is false
of the program: an update of `2^32 + 1` bytes feeds only one byte (see the
counterexample). -/
theorem hmac_final_writes_tag (strict : Bool) (a : CryptoAlgsType)
    (k : List Nat) (chunks : List (List Nat))
    (hm : chunks.flatten.length < 2 ^ 31) (hk : k.length < 2 ^ 31) :
    (chunks.foldl (fun t m => (t.update strict m true).1)
          ((freshContext.init a k true).1)).final strict true
        = (chunks.foldl (fun t m => (t.update strict m true).1)
            ((freshContext.init a k true).1),
           [EngineEv.finalEv],
           Except.ok (hmacTag a k chunks.flatten, digestSize a))
      ∧ (chunks.foldl (fun t m => (t.update strict m true).1)
          ((freshContext.init a k true).1)).size strict
        = Except.ok (digestSize a)
      ∧ ((chunks.foldl (fun t m => (t.update strict m true).1)
          ((freshContext.init a k true).1)).is_initialized) = true := by
  rw [init_success_state freshContext a k, narrowChunk_eq_self k hk]
  rw [foldl_update_success strict chunks
    { initialized := true, ctx := { md := a, key := k, data := [] } } rfl]
  rw [map_narrowChunk_eq chunks
    (fun c hc => narrowChunk_eq_self c (lt_of_le_of_lt (length_le_flatten hc) hm))]
  simp [HMACContext.final, HMACContext.size, HMACContext.size_,
    HMACContext.check_initialized, HMACContext.is_initialized, length_hmacTag]

/-- Witness for C8's amended theorem: SHA-256, key `[3]`, chunks
`[[1],[2]]`; both length bounds hold concretely. -/
theorem hmac_final_writes_tag_witness :
    ([[1], [2]] : List (List Nat)).flatten.length < 2 ^ 31
      ∧ ([3] : List Nat).length < 2 ^ 31
      ∧ ((([[1], [2]] : List (List Nat)).foldl
              (fun t m => (t.update true m true).1)
              ((freshContext.init CryptoAlgsType.sha256 [3] true).1)).final
            true true
            = (([[1], [2]] : List (List Nat)).foldl
                (fun t m => (t.update true m true).1)
                ((freshContext.init CryptoAlgsType.sha256 [3] true).1),
               [EngineEv.finalEv],
               Except.ok (hmacTag CryptoAlgsType.sha256 [3]
                 (([[1], [2]] : List (List Nat)).flatten),
                 digestSize CryptoAlgsType.sha256))
          ∧ (([[1], [2]] : List (List Nat)).foldl
              (fun t m => (t.update true m true).1)
              ((freshContext.init CryptoAlgsType.sha256 [3] true).1)).size true
            = Except.ok (digestSize CryptoAlgsType.sha256)
          ∧ ((([[1], [2]] : List (List Nat)).foldl
              (fun t m => (t.update true m true).1)
              ((freshContext.init CryptoAlgsType.sha256 [3] true).1)).is_initialized)
            = true) :=
  ⟨by decide, by decide,
   hmac_final_writes_tag true CryptoAlgsType.sha256 [3] [[1], [2]]
     (by decide) (by decide)⟩

set_option maxRecDepth 8192 in
/-- Counterexample to C8 as stated over all update sequences: with MD4, the
empty key, and a single update of `2^32 + 1` bytes (`2^32` sevens then a
nine), the engine receives only the first byte (`int(2^32 + 1) = 1`), so
`final` tags `[7]` while the claimed tag is over the whole message — which
this model's hash provably collapses to the tag of `[9]`; the two differ. -/
theorem hmac_final_writes_tag_cex :
    ¬ ((([List.replicate (2 ^ 32) 7 ++ [9]] : List (List Nat)).foldl
            (fun t m => (t.update true m true).1)
            ((freshContext.init CryptoAlgsType.md4 [] true).1)).final true true
          = (([List.replicate (2 ^ 32) 7 ++ [9]] : List (List Nat)).foldl
              (fun t m => (t.update true m true).1)
              ((freshContext.init CryptoAlgsType.md4 [] true).1),
             [EngineEv.finalEv],
             Except.ok (hmacTag CryptoAlgsType.md4 []
               (([List.replicate (2 ^ 32) 7 ++ [9]] : List (List Nat)).flatten),
               digestSize CryptoAlgsType.md4))
        ∧ (([List.replicate (2 ^ 32) 7 ++ [9]] : List (List Nat)).foldl
            (fun t m => (t.update true m true).1)
            ((freshContext.init CryptoAlgsType.md4 [] true).1)).size true
          = Except.ok (digestSize CryptoAlgsType.md4)
        ∧ ((([List.replicate (2 ^ 32) 7 ++ [9]] : List (List Nat)).foldl
            (fun t m => (t.update true m true).1)
            ((freshContext.init CryptoAlgsType.md4 [] true).1)).is_initialized)
          = true) := by
  intro hconj
  have h1 := hconj.1
  have h0 : ((freshContext.init CryptoAlgsType.md4 [] true).1).initialized
      = true := rfl
  rw [foldl_update_success true [List.replicate (2 ^ 32) 7 ++ [9]] _ h0] at h1
  simp only [List.map_cons, List.map_nil, List.flatten_cons, List.flatten_nil,
    List.append_nil] at h1
  rw [narrowChunk_big_concat, hmacTag_absorb] at h1
  exact absurd h1 (by decide)

/-- C9: the tag length reported by `size()` (`HMAC_size`) and returned by a
successful `final` never exceeds `MAX_HMAC_SIZE = EVP_MAX_MD_SIZE`, for
every bound algorithm, key, and update sequence — a buffer of
`MAX_HMAC_SIZE` bytes always suffices for `final`: the tag `final`
actually writes (over the engine-received bytes) has length at most
`MAX_HMAC_SIZE`, as does the HMAC tag of any key and message whatsoever. -/
theorem hmac_tag_length_bounded (strict : Bool) (a : CryptoAlgsType)
    (k : List Nat) (chunks : List (List Nat)) :
    (chunks.foldl (fun t m => (t.update strict m true).1)
          ((freshContext.init a k true).1)).size_ ≤ MAX_HMAC_SIZE
      ∧ ((chunks.foldl (fun t m => (t.update strict m true).1)
            ((freshContext.init a k true).1)).final strict true).2.2
          = Except.ok (hmacTag a (narrowChunk k)
              ((chunks.map narrowChunk).flatten), digestSize a)
      ∧ (hmacTag a (narrowChunk k) ((chunks.map narrowChunk).flatten)).length
          ≤ MAX_HMAC_SIZE
      ∧ (hmacTag a k chunks.flatten).length ≤ MAX_HMAC_SIZE
      ∧ digestSize a ≤ MAX_HMAC_SIZE := by
  rw [init_success_state freshContext a k]
  rw [foldl_update_success strict chunks
    { initialized := true,
      ctx := { md := a, key := narrowChunk k, data := [] } } rfl]
  refine ⟨?_, ?_, ?_, ?_, digestSize_le_max a⟩
  · simpa [HMACContext.size_] using digestSize_le_max a
  · simp [HMACContext.final, HMACContext.check_initialized, length_hmacTag]
  · simpa [length_hmacTag] using digestSize_le_max a
  · simpa [length_hmacTag] using digestSize_le_max a

/-- C10: when `update`, `reset`, or `final` fails at the engine level on an
initialized context, the wrapper rethrows the corresponding
`openssl_hmac_error` and leaves the context state — in particular the
`initialized` flag — unchanged: `is_initialized()` still returns true after
the failure. -/
theorem hmac_primitive_failure_keeps_initialized (strict : Bool)
    (s : HMACContext) (m : List Nat) (h : s.initialized = true) :
    s.update strict m false
        = (s, [EngineEv.updateEv],
           Except.error (HMACError.hmacError "HMAC_Update"))
      ∧ s.reset strict false
          = (s, [EngineEv.resetExFail],
             Except.error (HMACError.hmacError "HMAC_Init_ex (reset)"))
      ∧ s.final strict false
          = (s, [EngineEv.finalEv],
             Except.error (HMACError.hmacError "HMAC_Final"))
      ∧ ((s.update strict m false).1).is_initialized = true
      ∧ ((s.reset strict false).1).is_initialized = true
      ∧ ((s.final strict false).1).is_initialized = true := by
  simp [HMACContext.update, HMACContext.reset, HMACContext.final,
    HMACContext.check_initialized, HMACContext.is_initialized, h]

/-- Witness for C10 at a context initialized with SHA-1 and key `[5]`,
strict mode, message `[9]`. -/
theorem hmac_primitive_failure_keeps_initialized_witness :
    sampleInit.initialized = true
      ∧ (sampleInit.update true [9] false
            = (sampleInit, [EngineEv.updateEv],
               Except.error (HMACError.hmacError "HMAC_Update"))
          ∧ sampleInit.reset true false
              = (sampleInit, [EngineEv.resetExFail],
                 Except.error (HMACError.hmacError "HMAC_Init_ex (reset)"))
          ∧ sampleInit.final true false
              = (sampleInit, [EngineEv.finalEv],
                 Except.error (HMACError.hmacError "HMAC_Final"))
          ∧ ((sampleInit.update true [9] false).1).is_initialized = true
          ∧ ((sampleInit.reset true false).1).is_initialized = true
          ∧ ((sampleInit.final true false).1).is_initialized = true) :=
  ⟨rfl, hmac_primitive_failure_keeps_initialized true sampleInit [9] rfl⟩
